import Mathlib

/-!
Verification development for the `ingestion` package of the
data-modeling-pipeline repository.  The definitions below are a shallow
embedding of `src/ingestion/validators/__init__.py` (Pydantic record
schemas and `SchemaValidator.validate`) and
`src/ingestion/loaders/__init__.py` (`PostgresLoader.load` and
`PostgresLoader.upsert`).  Scalar cell values are modelled as a tagged
union (string / rational number / bool / timestamp / NaN / None), rows as
insertion-ordered key-value lists with Python-dict update semantics, and
the external collaborators (pandas `to_sql`, the SQLAlchemy connection
inside `engine.begin()`) as explicit function parameters.
-/

/-- A dynamically typed scalar cell of a pandas row: string, number
(Python ints/floats modelled as exact rationals), boolean, timestamp
(`datetime`, modelled by an integer instant), float NaN, or None/NaT. -/
inductive Value where
  | str (s : String)
  | num (q : ℚ)
  | bool (b : Bool)
  | dt (t : ℤ)
  | nan
  | null
deriving DecidableEq, Repr

instance {e a : Type} [DecidableEq e] [DecidableEq a] : DecidableEq (Except e a)
  | .ok x, .ok y =>
      match decEq x y with
      | isTrue h => isTrue (h ▸ rfl)
      | isFalse h => isFalse (fun hh => h (Except.ok.inj hh))
  | .ok _, .error _ => isFalse (fun hh => Except.noConfusion hh)
  | .error _, .ok _ => isFalse (fun hh => Except.noConfusion hh)
  | .error x, .error y =>
      match decEq x y with
      | isTrue h => isTrue (h ▸ rfl)
      | isFalse h => isFalse (fun hh => h (Except.error.inj hh))

/-- `pd.isna`: true exactly for float NaN and for None/NaT. -/
def isna : Value → Bool
  | .nan => true
  | .null => true
  | _ => false

/-- A row, as produced by `row.to_dict()`: an insertion-ordered mapping
from column name to scalar value. -/
abbrev Row : Type := List (String × Value)

/-- Dictionary lookup: the value at the first occurrence of key `k`. -/
def lookupVal (r : Row) (k : String) : Option Value :=
  match r with
  | [] => none
  | (k', v) :: rest => if k' = k then some v else lookupVal rest k

/-- `d[k] = v` on a Python dict: replace the value at an existing key in
place, else append the new key at the end (insertion order). -/
def dictInsert (r : Row) (k : String) (v : Value) : Row :=
  match r with
  | [] => [(k, v)]
  | (k', v') :: rest => if k' = k then (k, v) :: rest else (k', v') :: dictInsert rest k v

/-- `base.update(upd)` on Python dicts: fold `dictInsert` over `upd`. -/
def dictUpdate (base : Row) (upd : Row) : Row :=
  upd.foldl (fun acc kv => dictInsert acc kv.1 kv.2) base

/-- Python `k.startswith('_')` for the one-character provenance marker:
true iff the first character of `k` is an underscore. -/
def startsWithUnderscore (k : String) : Bool :=
  match k.data with
  | [] => false
  | c :: _ => c = '_'

/-- The row dictionary handed to the Pydantic schema
(validators/__init__.py lines 115-119): keep only the keys that do not
start with the metadata marker `_`, and replace every `pd.isna` value
(NaN, None) by None. -/
def cleanRow : Row → Row
  | [] => []
  | (k, v) :: rest =>
      if startsWithUnderscore k then cleanRow rest
      else (k, if isna v then Value.null else v) :: cleanRow rest

/-- ASCII case folding of one character, modelling Python `str.lower`
on the ASCII range used by the pipeline's data. -/
def lowerChar : Char → Char
  | 'A' => 'a' | 'B' => 'b' | 'C' => 'c' | 'D' => 'd' | 'E' => 'e'
  | 'F' => 'f' | 'G' => 'g' | 'H' => 'h' | 'I' => 'i' | 'J' => 'j'
  | 'K' => 'k' | 'L' => 'l' | 'M' => 'm' | 'N' => 'n' | 'O' => 'o'
  | 'P' => 'p' | 'Q' => 'q' | 'R' => 'r' | 'S' => 's' | 'T' => 't'
  | 'U' => 'u' | 'V' => 'v' | 'W' => 'w' | 'X' => 'x' | 'Y' => 'y'
  | 'Z' => 'z'
  | c => c

/-- Python `v.lower()` (ASCII range), used by
`CustomerRecord.lowercase_email` (validators/__init__.py lines 28-31). -/
def strLower (s : String) : String := ⟨s.data.map lowerChar⟩

/-- Regex `\w` on the ASCII range: letter, digit or underscore. -/
def isWordChar (c : Char) : Bool := c.isAlpha || c.isDigit || c = '_'

/-- A character of the regex class `[\w\.-]`. -/
def isEmailClassChar (c : Char) : Bool := isWordChar c || c = '.' || c = '-'

/-- The domain part of the email pattern: `[\w\.-]+\.\w+` anchored at the
end.  Since `\w+` admits neither `.` nor `-`, a match exists iff all
characters are in the class, the segment after the last dot is a
non-empty word and something non-empty precedes that dot. -/
def emailDomainMatch (dom : List Char) : Bool :=
  dom.all isEmailClassChar &&
  (let rd := dom.reverse
   let tld := rd.takeWhile (fun c => ¬ c = '.')
   let rest := rd.dropWhile (fun c => ¬ c = '.')
   !tld.isEmpty && tld.all isWordChar && !(rest.drop 1).isEmpty)

/-- The anchored email pattern of `CustomerRecord.email`
(validators/__init__.py line 24): `^[\w\.-]+@[\w\.-]+\.\w+$`.  `@` is in
neither character class, so the local part is the maximal class run
before a mandatory `@` and the remainder is the domain. -/
def emailMatch (s : String) : Bool :=
  let l := s.data
  let loc := l.takeWhile isEmailClassChar
  match l.dropWhile isEmailClassChar with
  | '@' :: dom => !loc.isEmpty && emailDomainMatch dom
  | _ => false

/-- The anchored status pattern of `OrderRecord.status`
(validators/__init__.py line 55): `^(pending|completed|shipped|cancelled)$`. -/
def statusMatch (s : String) : Bool :=
  s = "pending" || s = "completed" || s = "shipped" || s = "cancelled"

/-- Round a rational to the nearest integer, ties to even — the rounding
rule of Python's built-in `round`. -/
def roundHalfEven (q : ℚ) : ℤ :=
  let f := ⌊q⌋
  let r := q - (f : ℚ)
  if r < 1/2 then f
  else if 1/2 < r then f + 1
  else if f % 2 = 0 then f else f + 1

/-- Python `round(v, 2)`, the normalizer of `ProductRecord.round_decimal`
(validators/__init__.py lines 42-45), on exact rationals. -/
def round2 (q : ℚ) : ℚ := (roundHalfEven (q * 100) : ℚ) / 100

/-- One entry of Pydantic's `e.errors()`: the offending field, the error
kind, and the offending input value (absent for a missing field). -/
structure FieldError where
  field : String
  kind : String
  input : Option Value
deriving DecidableEq, Repr

/-- A required `str` field with a `min_length` constraint
(Pydantic `Field(..., min_length=n)`). -/
def reqStr (r : Row) (name : String) (minLen : Nat) : Except FieldError String :=
  match lookupVal r name with
  | none => .error ⟨name, "missing", none⟩
  | some (.str s) =>
      if minLen ≤ s.length then .ok s
      else .error ⟨name, "string_too_short", some (.str s)⟩
  | some v => .error ⟨name, "string_type", some v⟩

/-- A required `str` field with a `pattern` constraint. -/
def reqStrPattern (r : Row) (name : String) (pat : String → Bool) : Except FieldError String :=
  match lookupVal r name with
  | none => .error ⟨name, "missing", none⟩
  | some (.str s) =>
      if pat s then .ok s
      else .error ⟨name, "string_pattern_mismatch", some (.str s)⟩
  | some v => .error ⟨name, "string_type", some v⟩

/-- A required `float` field with a numeric-bound constraint (`gt`/`ge`);
`check` is the bound predicate and `kind` its Pydantic error kind. -/
def reqFloat (r : Row) (name : String) (check : ℚ → Bool) (kind : String) :
    Except FieldError ℚ :=
  match lookupVal r name with
  | none => .error ⟨name, "missing", none⟩
  | some (.num q) =>
      if check q then .ok q
      else .error ⟨name, kind, some (.num q)⟩
  | some v => .error ⟨name, "float_type", some v⟩

/-- A required `int` field with `gt=0` (`OrderRecord.quantity`): a number
is an int only when it has no fractional part. -/
def reqIntGt0 (r : Row) (name : String) : Except FieldError ℚ :=
  match lookupVal r name with
  | none => .error ⟨name, "missing", none⟩
  | some (.num q) =>
      if q.den = 1 then
        if 0 < q then .ok q else .error ⟨name, "greater_than", some (.num q)⟩
      else .error ⟨name, "int_from_float", some (.num q)⟩
  | some v => .error ⟨name, "int_type", some v⟩

/-- An `Optional[datetime] = None` field: absent keys take the default
None; None and timestamps pass; anything else is a type error. -/
def optDt (r : Row) (name : String) : Except FieldError Value :=
  match lookupVal r name with
  | none => .ok .null
  | some .null => .ok .null
  | some (.dt t) => .ok (.dt t)
  | some v => .error ⟨name, "datetime_type", some v⟩

/-- The error entries contributed by one field. -/
def errsOf {α : Type} : Except FieldError α → List FieldError
  | .ok _ => []
  | .error e => [e]

/-- The three registered Pydantic schemas (`SchemaValidator.SCHEMAS`,
validators/__init__.py lines 68-72). -/
inductive SchemaName where
  | customers
  | products
  | orders
deriving DecidableEq, Repr

/-- `CustomerRecord(**row_dict)` (validators/__init__.py lines 19-31):
validate every field, collecting the errors of all failing fields in
declaration order; on success return `model_dump()` — the field values
in declaration order, with the email lower-cased by the
`lowercase_email` after-validator. -/
def applyCustomers (r : Row) : Except (List FieldError) Row :=
  let cid := reqStr r "customer_id" 1
  let fn := reqStr r "first_name" 1
  let ln := reqStr r "last_name" 1
  let em := reqStrPattern r "email" emailMatch
  let co := reqStr r "country" 2
  let ca := optDt r "created_at"
  match cid, fn, ln, em, co, ca with
  | .ok a, .ok b, .ok c, .ok d, .ok e, .ok f =>
      .ok [("customer_id", .str a), ("first_name", .str b), ("last_name", .str c),
           ("email", .str (strLower d)), ("country", .str e), ("created_at", f)]
  | _, _, _, _, _, _ =>
      .error (errsOf cid ++ errsOf fn ++ errsOf ln ++ errsOf em ++ errsOf co ++ errsOf ca)

/-- `ProductRecord(**row_dict)` (validators/__init__.py lines 34-45):
`price` must satisfy `gt=0` and `cost` `ge=0` (checked on the raw value),
then the `round_decimal` after-validator rounds both to 2 decimals. -/
def applyProducts (r : Row) : Except (List FieldError) Row :=
  let pid := reqStr r "product_id" 1
  let pn := reqStr r "product_name" 1
  let cat := reqStr r "category" 1
  let pr := reqFloat r "price" (fun q => decide (0 < q)) "greater_than"
  let co := reqFloat r "cost" (fun q => decide (0 ≤ q)) "greater_than_equal"
  match pid, pn, cat, pr, co with
  | .ok a, .ok b, .ok c, .ok d, .ok e =>
      .ok [("product_id", .str a), ("product_name", .str b), ("category", .str c),
           ("price", .num (round2 d)), ("cost", .num (round2 e))]
  | _, _, _, _, _ =>
      .error (errsOf pid ++ errsOf pn ++ errsOf cat ++ errsOf pr ++ errsOf co)

/-- `OrderRecord(**row_dict)` (validators/__init__.py lines 48-55). -/
def applyOrders (r : Row) : Except (List FieldError) Row :=
  let oid := reqStr r "order_id" 1
  let cid := reqStr r "customer_id" 1
  let pid := reqStr r "product_id" 1
  let qty := reqIntGt0 r "quantity"
  let od := optDt r "order_date"
  let st := reqStrPattern r "status" statusMatch
  match oid, cid, pid, qty, od, st with
  | .ok a, .ok b, .ok c, .ok d, .ok e, .ok f =>
      .ok [("order_id", .str a), ("customer_id", .str b), ("product_id", .str c),
           ("quantity", .num d), ("order_date", e), ("status", .str f)]
  | _, _, _, _, _, _ =>
      .error (errsOf oid ++ errsOf cid ++ errsOf pid ++ errsOf qty ++ errsOf od ++ errsOf st)

/-- Apply the named schema to a (cleaned) row dictionary. -/
def applySchema : SchemaName → Row → Except (List FieldError) Row
  | .customers => applyCustomers
  | .products => applyProducts
  | .orders => applyOrders

/-- The `SCHEMAS` registry lookup (validators/__init__.py line 103). -/
def schemaOfName : String → Option SchemaName
  | "customers" => some .customers
  | "products" => some .products
  | "orders" => some .orders
  | _ => none

/-- The validation mode of `SchemaValidator` (validators/__init__.py
lines 62-65). -/
inductive Mode where
  | strict
  | filter
  | flag
deriving DecidableEq, Repr

/-- `SchemaValidator.__init__` (validators/__init__.py lines 74-83):
reject any mode string outside 'strict', 'filter', 'flag' with
`ValueError(f"Invalid mode: ...")`. -/
def initMode (mode : String) : Except String Mode :=
  if mode = "strict" then .ok .strict
  else if mode = "filter" then .ok .filter
  else if mode = "flag" then .ok .flag
  else .error ("Invalid mode: " ++ mode)

/-- One entry of the returned error list (validators/__init__.py lines
131-135): the row's index, its Pydantic errors and its raw data. -/
structure ValErr where
  row_index : Nat
  errors : List FieldError
  data : Row
deriving DecidableEq, Repr

/-- The failure modes of `SchemaValidator.validate`: unknown schema name,
or (strict mode) the `ValueError` raised on the first invalid row, whose
message `f"Validation failed: {e}"` carries that row's Pydantic errors. -/
inductive VErr where
  | unknownSchema (name : String)
  | validationFailed (errs : List FieldError)
deriving DecidableEq, Repr

/-- A deterministic serialization of Pydantic `str(e.errors())`, stored in
the `_validation_errors` column of flagged rows. -/
def reprErrs (fes : List FieldError) : String :=
  String.intercalate "; " (fes.map (fun e => e.field ++ ": " ++ e.kind))

/-- The row loop of `SchemaValidator.validate` (validators/__init__.py
lines 112-145), carrying the running row index: clean the row, apply the
schema; a valid row is the original dict updated with `model_dump()`
(plus `_is_valid = True` in flag mode); an invalid row aborts in strict
mode, is dropped to the error list in filter mode, and is appended
flagged (`_is_valid = False`, `_validation_errors`) in flag mode. -/
def validateRows (mode : Mode) (sch : SchemaName) :
    Nat → List Row → Except (List FieldError) (List Row × List ValErr)
  | _, [] => .ok ([], [])
  | idx, r :: rest =>
    match applySchema sch (cleanRow r) with
    | .ok dump =>
        let vr := dictUpdate r dump
        let vr := if mode = .flag then dictInsert vr "_is_valid" (.bool true) else vr
        match validateRows mode sch (idx + 1) rest with
        | .ok (vs, es) => .ok (vr :: vs, es)
        | .error e => .error e
    | .error fes =>
        match mode with
        | .strict => .error fes
        | .filter =>
            match validateRows mode sch (idx + 1) rest with
            | .ok (vs, es) => .ok (vs, ⟨idx, fes, r⟩ :: es)
            | .error e => .error e
        | .flag =>
            let fr := dictInsert (dictInsert r "_is_valid" (.bool false))
                        "_validation_errors" (.str (reprErrs fes))
            match validateRows mode sch (idx + 1) rest with
            | .ok (vs, es) => .ok (fr :: vs, ⟨idx, fes, r⟩ :: es)
            | .error e => .error e

/-- `SchemaValidator.validate` (validators/__init__.py lines 85-156):
look the schema up by name (`ValueError(f"Unknown schema: ...")` if
absent), then run the row loop from index 0. -/
def validate (mode : Mode) (schemaName : String) (df : List Row) :
    Except VErr (List Row × List ValErr) :=
  match schemaOfName schemaName with
  | none => .error (.unknownSchema schemaName)
  | some sch =>
      match validateRows mode sch 0 df with
      | .ok res => .ok res
      | .error fes => .error (.validationFailed fes)

/-- The outcome of `PostgresLoader.load`: the returned row count or the
raised `LoadError` message, the resulting warehouse state, and the number
of `to_sql` round trips issued. -/
structure LoadOut (α : Type) where
  result : Except String Nat
  state : α
  calls : Nat

/-- `PostgresLoader.load` (loaders/__init__.py lines 67-115).  The
warehouse is an external collaborator: `toSql` models
`df.to_sql(name, con, schema, if_exists, chunksize=...)` as a state
transformer that either succeeds with a new state or fails with the
underlying error message and whatever state the partial write left.  An
empty DataFrame short-circuits to 0 with no round trip (lines 91-93);
otherwise one `to_sql` call is issued and any exception is re-raised as
`LoadError(f"Failed to load data: {e}")` (line 115). -/
def load {α : Type} (toSql : List Row → String → String → String → Nat → α → Except (String × α) α)
    (df : List Row) (tableName schemaName ifExists : String) (chunkSize : Nat)
    (st : α) : LoadOut α :=
  if df.isEmpty then ⟨.ok 0, st, 0⟩
  else
    match toSql df tableName schemaName ifExists chunkSize st with
    | .ok st' => ⟨.ok df.length, st', 1⟩
    | .error (e, st') => ⟨.error ("Failed to load data: " ++ e), st', 1⟩

/-- The failure kinds of `upsert`.  `invalidKeySpec` is the spec's
`InvalidKeySpec` error (spec.md section 7); it is representable here so
that statements about it can be made, and the theorems below show the
source never produces it.  `execFailed` is a statement rejected by the
warehouse inside the transaction. -/
inductive UpsertErr where
  | invalidKeySpec
  | execFailed (msg : String)
deriving DecidableEq, Repr

/-- The outcome of `PostgresLoader.upsert`: the result, the trace of
statements actually sent to the warehouse (with their row parameters),
and the resulting committed table state. -/
structure UpsertOut (α : Type) where
  result : Except UpsertErr Nat
  sent : List (String × Row)
  state : α

/-- The upsert SQL text built at loaders/__init__.py lines 144-157,
whitespace included. -/
def buildUpsertSql (schemaName tableName : String)
    (cols keyCols updCols : List String) : String :=
  let colList := String.intercalate ", " cols
  let placeholders := String.intercalate ", " (cols.map (fun c => ":" ++ c))
  let keyList := String.intercalate ", " keyCols
  let updateSet := String.intercalate ", " (updCols.map (fun c => c ++ " = EXCLUDED." ++ c))
  "\n        INSERT INTO " ++ schemaName ++ "." ++ tableName ++ " (" ++ colList ++
    ")\n        VALUES (" ++ placeholders ++ ")\n        ON CONFLICT (" ++ keyList ++
    ")\n        DO UPDATE SET " ++ updateSet ++ "\n        "

/-- The per-row loop `for _, row in df.iterrows(): conn.execute(text(sql),
row.to_dict())` (loaders/__init__.py lines 162-163), run against the
uncommitted in-transaction state: returns the trace of statements sent
and either the final in-transaction state or the first execution error. -/
def execRows {α : Type} (exec : String → Row → α → Except String α) (sql : String) :
    List Row → α → List (String × Row) × Except String α
  | [], st => ([], .ok st)
  | r :: rest, st =>
    match exec sql r st with
    | .ok st' =>
        let (tr, res) := execRows exec sql rest st'
        ((sql, r) :: tr, res)
    | .error e => ([(sql, r)], .error e)

/-- `PostgresLoader.upsert` (loaders/__init__.py lines 117-165).  `cols`
is `df.columns`, `rows` the rows of `df` in order, `exec` the external
`conn.execute` against the in-transaction state.  An empty DataFrame
returns 0 before anything else (lines 138-139); otherwise the update
columns default to all non-key columns (lines 141-142), the SQL is built
once, and every row is executed inside one `engine.begin()` transaction
(lines 161-163): on success the final state is committed, and on any
execution error the transaction is rolled back, leaving the table state
unchanged. -/
def upsert {α : Type} (exec : String → Row → α → Except String α)
    (cols : List String) (rows : List Row) (tableName schemaName : String)
    (keyCols : List String) (updateCols : Option (List String)) (st : α) : UpsertOut α :=
  if rows.isEmpty then ⟨.ok 0, [], st⟩
  else
    let updCols := updateCols.getD (cols.filter (fun c => !keyCols.contains c))
    let sql := buildUpsertSql schemaName tableName cols keyCols updCols
    match execRows exec sql rows st with
    | (tr, .ok st') => ⟨.ok rows.length, tr, st'⟩
    | (tr, .error e) => ⟨.error (.execFailed e), tr, st⟩

/-! ### Sample data -/

/-- A valid customer row (mixed-case email, to exercise normalization). -/
def sampleCustomer : Row :=
  [("customer_id", .str "C001"), ("first_name", .str "John"), ("last_name", .str "Doe"),
   ("email", .str "John@Example.com"), ("country", .str "US"), ("created_at", .dt 0)]

/-- The `model_dump()` of `sampleCustomer`. -/
def sampleCustomerDump : Row :=
  [("customer_id", .str "C001"), ("first_name", .str "John"), ("last_name", .str "Doe"),
   ("email", .str "john@example.com"), ("country", .str "US"), ("created_at", .dt 0)]

/-- `sampleCustomer` after validation: the email is lower-cased in place. -/
def sampleCustomerNorm : Row :=
  [("customer_id", .str "C001"), ("first_name", .str "John"), ("last_name", .str "Doe"),
   ("email", .str "john@example.com"), ("country", .str "US"), ("created_at", .dt 0)]

/-- A customer row whose email fails the pattern. -/
def badCustomer : Row :=
  [("customer_id", .str "C002"), ("first_name", .str "Jane"), ("last_name", .str "Doe"),
   ("email", .str "invalid-email"), ("country", .str "UK"), ("created_at", .null)]

/-- A valid product row with already-round prices. -/
def sampleProduct : Row :=
  [("product_id", .str "P001"), ("product_name", .str "Test Product"),
   ("category", .str "Electronics"), ("price", .num (9999/100)), ("cost", .num 50)]

/-- A product row with price 0.001: strictly positive, so it passes
`gt=0`, but `round(0.001, 2) = 0.0`. -/
def tinyProduct : Row :=
  [("product_id", .str "P1"), ("product_name", .str "Widget"), ("category", .str "misc"),
   ("price", .num (1/1000)), ("cost", .num 0)]

/-- `tinyProduct` after validation: the price has been rounded to 0. -/
def tinyProductNorm : Row :=
  [("product_id", .str "P1"), ("product_name", .str "Widget"), ("category", .str "misc"),
   ("price", .num 0), ("cost", .num 0)]

/-- A two-column row for loader scenarios. -/
def toyRow : Row := [("k", .num 1), ("v", .num 1)]

/-- A second loader row, with key 2. -/
def toyRow2 : Row := [("k", .num 2), ("v", .num 2)]

/-- A third loader row, with key 3. -/
def toyRow3 : Row := [("k", .num 3), ("v", .num 3)]

/-- A warehouse that rejects every statement (e.g. malformed SQL such as
an empty `ON CONFLICT ()` target). -/
def failExec : String → Row → Unit → Except String Unit :=
  fun _ _ _ => .error "syntax error at end of input"

/-- A toy warehouse state counting applied statements; the statement for
key 2 violates a constraint. -/
def toyExec : String → Row → Nat → Except String Nat :=
  fun _ row st =>
    if lookupVal row "k" = some (.num 2) then .error "constraint violation"
    else .ok (st + 1)

/-- A `to_sql` collaborator whose round trip always fails with a
connection error, leaving the state unchanged. -/
def failToSql : List Row → String → String → String → Nat → Unit → Except (String × Unit) Unit :=
  fun _ _ _ _ _ st => .error ("connection reset", st)

/-! ### Dictionary and cleaning lemmas -/

theorem lookupVal_dictInsert_self (b : Row) (k : String) (v : Value) :
    lookupVal (dictInsert b k v) k = some v := by
  induction b with
  | nil => simp [dictInsert, lookupVal]
  | cons kv rest ih =>
    obtain ⟨k0, v0⟩ := kv
    by_cases h0 : k0 = k
    · simp [dictInsert, h0, lookupVal]
    · simp [dictInsert, h0, lookupVal, ih]

theorem lookupVal_dictInsert_ne (b : Row) (k' k : String) (v : Value) (h : k' ≠ k) :
    lookupVal (dictInsert b k' v) k = lookupVal b k := by
  induction b with
  | nil => simp [dictInsert, lookupVal, h]
  | cons kv rest ih =>
    obtain ⟨k0, v0⟩ := kv
    by_cases h0 : k0 = k'
    · subst h0
      simp [dictInsert, lookupVal, h]
    · simp only [dictInsert, if_neg h0, lookupVal]
      by_cases h1 : k0 = k <;> simp [h1, ih]

theorem dictInsert_lookup_eq (b : Row) (k : String) (v : Value)
    (h : lookupVal b k = some v) : dictInsert b k v = b := by
  induction b with
  | nil => simp [lookupVal] at h
  | cons kv rest ih =>
    obtain ⟨k0, v0⟩ := kv
    by_cases h0 : k0 = k
    · subst h0
      simp only [lookupVal, if_true, eq_self_iff_true, Option.some.injEq] at h
      simp [dictInsert, h]
    · simp only [lookupVal, if_neg h0] at h
      simp [dictInsert, h0, ih h]

theorem dictUpdate_lookup_eq (b : Row) (upd : Row)
    (h : ∀ kv ∈ upd, lookupVal b kv.1 = some kv.2) : dictUpdate b upd = b := by
  induction upd with
  | nil => rfl
  | cons kv rest ih =>
    obtain ⟨k, v⟩ := kv
    have hb : dictInsert b k v = b := dictInsert_lookup_eq b k v (h (k, v) (List.mem_cons_self _ _))
    show dictUpdate (dictInsert b k v) rest = b
    rw [hb]
    exact ih (fun kv hkv => h kv (List.mem_cons_of_mem _ hkv))

theorem lookupVal_dictUpdate_notmem (b : Row) (upd : Row) (k : String)
    (h : ∀ kv ∈ upd, kv.1 ≠ k) :
    lookupVal (dictUpdate b upd) k = lookupVal b k := by
  induction upd generalizing b with
  | nil => rfl
  | cons kv rest ih =>
    obtain ⟨k0, v0⟩ := kv
    show lookupVal (dictUpdate (dictInsert b k0 v0) rest) k = _
    rw [ih (dictInsert b k0 v0) (fun kv hkv => h kv (List.mem_cons_of_mem _ hkv))]
    exact lookupVal_dictInsert_ne b k0 k v0 (h (k0, v0) (List.mem_cons_self _ _))

theorem lookupVal_dictUpdate_mem (b : Row) (upd : Row) (k : String) (v : Value)
    (hnd : (upd.map Prod.fst).Nodup) (hmem : (k, v) ∈ upd) :
    lookupVal (dictUpdate b upd) k = some v := by
  induction upd generalizing b with
  | nil => simp at hmem
  | cons kv rest ih =>
    obtain ⟨k0, v0⟩ := kv
    simp only [List.map_cons, List.nodup_cons] at hnd
    rcases List.mem_cons.mp hmem with heq | htail
    · have hk : k0 = k := (congrArg Prod.fst heq).symm
      have hv : v0 = v := (congrArg Prod.snd heq).symm
      subst hk; subst hv
      show lookupVal (dictUpdate (dictInsert b k0 v0) rest) k0 = some v0
      rw [lookupVal_dictUpdate_notmem _ rest k0]
      · exact lookupVal_dictInsert_self b k0 v0
      · intro kv hkv hkk
        exact hnd.1 (hkk ▸ List.mem_map_of_mem Prod.fst hkv)
    · exact ih (dictInsert b k0 v0) hnd.2 htail

theorem lookupVal_cleanRow_meta (r : Row) (k : String) (hk : startsWithUnderscore k = true) :
    lookupVal (cleanRow r) k = none := by
  induction r with
  | nil => rfl
  | cons kv rest ih =>
    obtain ⟨k0, v0⟩ := kv
    by_cases h0 : startsWithUnderscore k0
    · simp [cleanRow, h0, ih]
    · have hne : k0 ≠ k := fun h => h0 (h ▸ hk)
      simp [cleanRow, h0, lookupVal, hne, ih]

theorem lookupVal_cleanRow (r : Row) (k : String) (hk : startsWithUnderscore k = false) :
    lookupVal (cleanRow r) k =
      (lookupVal r k).map (fun v => if isna v then Value.null else v) := by
  induction r with
  | nil => rfl
  | cons kv rest ih =>
    obtain ⟨k0, v0⟩ := kv
    by_cases h0 : startsWithUnderscore k0
    · have hne : k0 ≠ k := fun h => by rw [h, hk] at h0; exact Bool.noConfusion h0
      simp [cleanRow, h0, lookupVal, hne, ih]
    · by_cases h1 : k0 = k
      · subst h1
        simp [cleanRow, h0, lookupVal]
      · simp [cleanRow, h0, lookupVal, h1, ih]

/-! ### Claim theorems: loader and mode validation -/

/-- C10: constructing a SchemaValidator succeeds exactly for the mode
strings 'strict', 'filter' and 'flag'; any other string fails with the
invalid-mode error, so every validate call runs under one of the three
Mode values. -/
theorem initMode_exactly_three_modes (m : String) :
    (∃ md, initMode m = .ok md) ↔ (m = "strict" ∨ m = "filter" ∨ m = "flag") := by
  unfold initMode
  by_cases h1 : m = "strict"
  · simp [h1]
  · by_cases h2 : m = "filter"
    · simp [h1, h2]
    · by_cases h3 : m = "flag" <;> simp [h1, h2, h3]

/-- C9: on an empty dataset, load returns 0 without issuing any to_sql
round trip and upsert returns 0 without sending any statement; in both
cases the warehouse state is untouched. -/
theorem load_upsert_empty_noop {α : Type}
    (toSql : List Row → String → String → String → Nat → α → Except (String × α) α)
    (exec : String → Row → α → Except String α) (cols : List String)
    (tableName schemaName ifExists : String) (chunkSize : Nat)
    (keyCols : List String) (updateCols : Option (List String)) (st : α) :
    load toSql [] tableName schemaName ifExists chunkSize st = ⟨.ok 0, st, 0⟩ ∧
    upsert exec cols [] tableName schemaName keyCols updateCols st = ⟨.ok 0, [], st⟩ :=
  ⟨rfl, rfl⟩

/-- C5 counterexample: two load calls that fail on different row ranges
(a 1-row dataset and a 3-row dataset) with the same underlying warehouse
error produce exactly the same LoadError value — `load`'s failure carries
only `"Failed to load data: " ++ underlying message`, so it does not
identify the failed batch index or row range, contrary to the claim. -/
theorem load_failure_carries_no_batch_info :
    load failToSql [toyRow] "t" "raw" "append" 10000 () =
      load failToSql [toyRow, toyRow2, toyRow3] "t" "raw" "append" 10000 () ∧
    (load failToSql [toyRow] "t" "raw" "append" 10000 ()).result =
      .error "Failed to load data: connection reset" ∧
    [toyRow].length ≠ [toyRow, toyRow2, toyRow3].length :=
  ⟨rfl, rfl, by decide⟩

/-- C5 amended: a failed to_sql round trip aborts the whole load call,
surfacing a LoadError whose content is the prefixed underlying warehouse
error message (and nothing more); a successful call returns the full row
count, so no rows are silently dropped. -/
theorem load_aborts_and_never_drops {α : Type}
    (toSql : List Row → String → String → String → Nat → α → Except (String × α) α)
    (rows : List Row) (tableName schemaName ifExists : String) (chunkSize : Nat)
    (st : α) (hne : rows ≠ []) :
    (∀ e st', toSql rows tableName schemaName ifExists chunkSize st = .error (e, st') →
        load toSql rows tableName schemaName ifExists chunkSize st =
          ⟨.error ("Failed to load data: " ++ e), st', 1⟩) ∧
    (∀ st', toSql rows tableName schemaName ifExists chunkSize st = .ok st' →
        load toSql rows tableName schemaName ifExists chunkSize st =
          ⟨.ok rows.length, st', 1⟩) := by
  have hb : rows.isEmpty = false := by
    cases rows with
    | nil => exact absurd rfl hne
    | cons r rest => rfl
  constructor
  · intro e st' h
    unfold load
    rw [hb, h]
    rfl
  · intro st' h
    unfold load
    rw [hb, h]
    rfl

/-- C5 amended, witness at a concrete failing call. -/
theorem load_aborts_and_never_drops_witness :
    ([toyRow] ≠ ([] : List Row)) ∧
    load failToSql [toyRow] "t" "raw" "append" 10000 () =
      ⟨.error ("Failed to load data: " ++ "connection reset"), (), 1⟩ :=
  ⟨by decide,
   (load_aborts_and_never_drops failToSql [toyRow] "t" "raw" "append" 10000 ()
      (by decide)).1 "connection reset" () rfl⟩

/-- C4 counterexample: an upsert call with an empty key-column set on a
one-row dataset is not rejected before reaching the warehouse — the
generated `ON CONFLICT ()` statement is sent (one statement in the
trace), and the resulting failure is the warehouse's own rejection, not
InvalidKeySpec. -/
theorem upsert_empty_keys_not_prechecked :
    (upsert failExec ["k", "v"] [toyRow] "t" "raw" [] none ()).result =
      .error (.execFailed "syntax error at end of input") ∧
    (upsert failExec ["k", "v"] [toyRow] "t" "raw" [] none ()).sent.length = 1 ∧
    (upsert failExec ["k", "v"] [toyRow] "t" "raw" [] none ()).result ≠
      .error .invalidKeySpec := by
  refine ⟨rfl, rfl, by decide⟩

/-- C4 amended: upsert performs no validation of the key columns at all —
for every key-column set (empty or not a subset of the dataset's columns
included) it never fails with InvalidKeySpec, and on a non-empty dataset
it always sends at least one statement to the warehouse, the key list
interpolated verbatim into the SQL; a bad key spec can only fail inside
the warehouse, after the first row was sent. -/
theorem upsert_never_invalid_key_spec {α : Type}
    (exec : String → Row → α → Except String α) (cols : List String)
    (rows : List Row) (tableName schemaName : String) (keyCols : List String)
    (updateCols : Option (List String)) (st : α) (hne : rows ≠ []) :
    (upsert exec cols rows tableName schemaName keyCols updateCols st).result ≠
      .error .invalidKeySpec ∧
    (upsert exec cols rows tableName schemaName keyCols updateCols st).sent ≠ [] := by
  cases rows with
  | nil => exact absurd rfl hne
  | cons r rest =>
    unfold upsert
    simp only [List.isEmpty_cons, Bool.false_eq_true, if_false]
    set sql := buildUpsertSql schemaName tableName cols keyCols
      (updateCols.getD (cols.filter (fun c => !keyCols.contains c))) with hsql
    show (match execRows exec sql (r :: rest) st with
      | (tr, .ok st') => UpsertOut.mk (.ok (r :: rest).length) tr st'
      | (tr, .error e) => UpsertOut.mk (.error (.execFailed e)) tr st).result ≠
        .error .invalidKeySpec ∧ _
    unfold execRows
    cases hexec : exec sql r st with
    | ok st1 =>
      rcases hrec : execRows exec sql rest st1 with ⟨tr, res⟩
      cases res <;> simp [hrec]
    | error e => simp

/-! ### Row-count conservation (validate) -/

theorem validateRows_filter_count (sch : SchemaName) :
    ∀ (rows : List Row) (idx : Nat) (acc : List Row) (errs : List ValErr),
      validateRows .filter sch idx rows = .ok (acc, errs) →
      acc.length + errs.length = rows.length := by
  intro rows
  induction rows with
  | nil =>
    intro idx acc errs h
    simp only [validateRows, Except.ok.injEq, Prod.mk.injEq] at h
    obtain ⟨h1, h2⟩ := h
    simp [← h1, ← h2]
  | cons r rest ih =>
    intro idx acc errs h
    unfold validateRows at h
    cases happ : applySchema sch (cleanRow r) with
    | ok dump =>
      rw [happ] at h
      cases hrec : validateRows .filter sch (idx + 1) rest with
      | ok p =>
        obtain ⟨vs, es⟩ := p
        rw [hrec] at h
        simp only [Except.ok.injEq, Prod.mk.injEq] at h
        obtain ⟨h1, h2⟩ := h
        have hc := ih (idx + 1) vs es hrec
        subst h1; subst h2
        simp only [List.length_cons]
        omega
      | error e =>
        rw [hrec] at h
        exact absurd h (by simp)
    | error fes =>
      rw [happ] at h
      cases hrec : validateRows .filter sch (idx + 1) rest with
      | ok p =>
        obtain ⟨vs, es⟩ := p
        rw [hrec] at h
        simp only [Except.ok.injEq, Prod.mk.injEq] at h
        obtain ⟨h1, h2⟩ := h
        have hc := ih (idx + 1) vs es hrec
        subst h1; subst h2
        simp only [List.length_cons]
        omega
      | error e =>
        rw [hrec] at h
        exact absurd h (by simp)

theorem validateRows_flag_count (sch : SchemaName) :
    ∀ (rows : List Row) (idx : Nat) (acc : List Row) (errs : List ValErr),
      validateRows .flag sch idx rows = .ok (acc, errs) →
      acc.length = rows.length := by
  intro rows
  induction rows with
  | nil =>
    intro idx acc errs h
    simp only [validateRows, Except.ok.injEq, Prod.mk.injEq] at h
    simp [← h.1]
  | cons r rest ih =>
    intro idx acc errs h
    unfold validateRows at h
    cases happ : applySchema sch (cleanRow r) with
    | ok dump =>
      rw [happ] at h
      cases hrec : validateRows .flag sch (idx + 1) rest with
      | ok p =>
        obtain ⟨vs, es⟩ := p
        rw [hrec] at h
        simp only [Except.ok.injEq, Prod.mk.injEq] at h
        obtain ⟨h1, h2⟩ := h
        have hc := ih (idx + 1) vs es hrec
        subst h1
        simp [hc]
      | error e =>
        rw [hrec] at h
        exact absurd h (by simp)
    | error fes =>
      rw [happ] at h
      cases hrec : validateRows .flag sch (idx + 1) rest with
      | ok p =>
        obtain ⟨vs, es⟩ := p
        rw [hrec] at h
        simp only [Except.ok.injEq, Prod.mk.injEq] at h
        obtain ⟨h1, h2⟩ := h
        have hc := ih (idx + 1) vs es hrec
        subst h1
        simp [hc]
      | error e =>
        rw [hrec] at h
        exact absurd h (by simp)

/-- C1: row-count conservation.  For every dataset and schema name, a
filter-mode validate that returns normally satisfies
`accepted.length + errors.length = input.length`, and a flag-mode
validate satisfies `accepted.length = input.length` (every input row
appears in the output, flagged valid or invalid). -/
theorem validate_eq_of_schema (m : Mode) (n : String) (sch : SchemaName) (df : List Row)
    (hs : schemaOfName n = some sch) :
    validate m n df = match validateRows m sch 0 df with
      | .ok res => .ok res
      | .error fes => .error (.validationFailed fes) := by
  unfold validate
  rw [hs]

theorem validate_row_count_conservation (schemaName : String) (df : List Row) :
    (∀ acc errs, validate .filter schemaName df = .ok (acc, errs) →
        acc.length + errs.length = df.length) ∧
    (∀ acc errs, validate .flag schemaName df = .ok (acc, errs) →
        acc.length = df.length) := by
  constructor <;> intro acc errs h
  · cases hs : schemaOfName schemaName with
    | none => unfold validate at h; rw [hs] at h; exact absurd h (by simp)
    | some sch =>
      rw [validate_eq_of_schema .filter schemaName sch df hs] at h
      cases hrun : validateRows .filter sch 0 df with
      | ok p =>
        rw [hrun] at h
        obtain ⟨vs, es⟩ := p
        simp only [Except.ok.injEq, Prod.mk.injEq] at h
        obtain ⟨h1, h2⟩ := h
        subst h1; subst h2
        exact validateRows_filter_count sch df 0 vs es hrun
      | error e => rw [hrun] at h; exact absurd h (by simp)
  · cases hs : schemaOfName schemaName with
    | none => unfold validate at h; rw [hs] at h; exact absurd h (by simp)
    | some sch =>
      rw [validate_eq_of_schema .flag schemaName sch df hs] at h
      cases hrun : validateRows .flag sch 0 df with
      | ok p =>
        rw [hrun] at h
        obtain ⟨vs, es⟩ := p
        simp only [Except.ok.injEq, Prod.mk.injEq] at h
        obtain ⟨h1, h2⟩ := h
        subst h1; subst h2
        exact validateRows_flag_count sch df 0 vs es hrun
      | error e => rw [hrun] at h; exact absurd h (by simp)

/-- C1 witness: a two-row customers dataset (one valid, one invalid) in
filter mode: 1 accepted + 1 error = 2 input rows. -/
theorem validate_row_count_conservation_witness :
    validate .filter "customers" [sampleCustomer, badCustomer] =
      .ok ([sampleCustomerNorm],
           [⟨1, [⟨"email", "string_pattern_mismatch", some (.str "invalid-email")⟩],
             badCustomer⟩]) ∧
    ([sampleCustomerNorm].length +
      [(⟨1, [⟨"email", "string_pattern_mismatch", some (.str "invalid-email")⟩],
        badCustomer⟩ : ValErr)].length = [sampleCustomer, badCustomer].length) :=
  ⟨by decide,
   (validate_row_count_conservation "customers" [sampleCustomer, badCustomer]).1 _ _
     (by decide)⟩

/-- C4 amended, witness: a key-column set that is not a subset of the
dataset's columns, on a non-empty dataset. -/
theorem upsert_never_invalid_key_spec_witness :
    ([toyRow] ≠ ([] : List Row)) ∧
    ((upsert failExec ["k", "v"] [toyRow] "t" "raw" ["no_such_col"] none ()).result ≠
        .error .invalidKeySpec ∧
      (upsert failExec ["k", "v"] [toyRow] "t" "raw" ["no_such_col"] none ()).sent ≠ []) :=
  ⟨by decide,
   upsert_never_invalid_key_spec failExec ["k", "v"] [toyRow] "t" "raw" ["no_such_col"]
     none () (by decide)⟩

/-! ### Strict-mode fail-fast -/

/-- C2: in strict mode, a dataset whose first invalid row is `bad` (all
rows before it valid) makes validate abort with exactly one error — the
ValueError carrying that row's validation errors (offending fields and
values) — and no accepted rows are returned, regardless of how many
valid rows precede or follow. -/
theorem validate_strict_fail_fast (schemaName : String) (sch : SchemaName)
    (pre : List Row) (bad : Row) (post : List Row) (fes : List FieldError)
    (hs : schemaOfName schemaName = some sch)
    (hpre : ∀ r ∈ pre, ∃ dump, applySchema sch (cleanRow r) = .ok dump)
    (hbad : applySchema sch (cleanRow bad) = .error fes) :
    validate .strict schemaName (pre ++ bad :: post) = .error (.validationFailed fes) := by
  rw [validate_eq_of_schema .strict schemaName sch (pre ++ bad :: post) hs]
  have key : ∀ (pre : List Row),
      (∀ r ∈ pre, ∃ dump, applySchema sch (cleanRow r) = .ok dump) →
      ∀ idx, validateRows .strict sch idx (pre ++ bad :: post) = .error fes := by
    intro pre
    induction pre with
    | nil =>
      intro _ idx
      simp only [List.nil_append]
      unfold validateRows
      rw [hbad]
    | cons p ps ih =>
      intro hpre idx
      obtain ⟨dump, hd⟩ := hpre p (List.mem_cons_self _ _)
      simp only [List.cons_append]
      unfold validateRows
      rw [hd, ih (fun r hr => hpre r (List.mem_cons_of_mem _ hr)) (idx + 1)]
  rw [key pre hpre 0]

/-- C2 witness: one valid row, then an invalid email, then another valid
row; strict mode surfaces exactly the invalid row's error. -/
theorem validate_strict_fail_fast_witness :
    (schemaOfName "customers" = some SchemaName.customers) ∧
    (∀ r ∈ [sampleCustomer], ∃ dump,
        applySchema SchemaName.customers (cleanRow r) = .ok dump) ∧
    (applySchema SchemaName.customers (cleanRow badCustomer) =
      .error [⟨"email", "string_pattern_mismatch", some (.str "invalid-email")⟩]) ∧
    validate .strict "customers" ([sampleCustomer] ++ badCustomer :: [sampleCustomer]) =
      .error (.validationFailed
        [⟨"email", "string_pattern_mismatch", some (.str "invalid-email")⟩]) :=
  ⟨rfl,
   fun r hr => by
     rw [List.mem_singleton.mp hr]
     exact ⟨sampleCustomerDump, by decide⟩,
   by decide,
   validate_strict_fail_fast "customers" SchemaName.customers [sampleCustomer]
     badCustomer [sampleCustomer]
     [⟨"email", "string_pattern_mismatch", some (.str "invalid-email")⟩] rfl
     (fun r hr => by
       rw [List.mem_singleton.mp hr]
       exact ⟨sampleCustomerDump, by decide⟩)
     (by decide)⟩

/-! ### Upsert transactionality -/

theorem execRows_prefix_fail {α : Type} (exec : String → Row → α → Except String α)
    (sql : String) (pre : List Row) :
    ∀ (r : Row) (rest : List Row) (st stP : α) (tr : List (String × Row)) (e : String),
      execRows exec sql pre st = (tr, .ok stP) → exec sql r stP = .error e →
      execRows exec sql (pre ++ r :: rest) st = (tr ++ [(sql, r)], .error e) := by
  induction pre with
  | nil =>
    intro r rest st stP tr e h1 h2
    simp only [execRows, Prod.mk.injEq] at h1
    obtain ⟨h3, h4⟩ := h1
    obtain rfl : st = stP := Except.ok.inj h4
    subst h3
    simp only [List.nil_append]
    unfold execRows
    rw [h2]
  | cons p ps ih =>
    intro r rest st stP tr e h1 h2
    unfold execRows at h1
    cases hexec : exec sql p st with
    | error e0 =>
      rw [hexec] at h1
      simp only [Prod.mk.injEq] at h1
      exact absurd h1.2 (by simp)
    | ok st1 =>
      rw [hexec] at h1
      simp only [] at h1
      rcases hrec : execRows exec sql ps st1 with ⟨tr1, res1⟩
      rw [hrec] at h1
      simp only [Prod.mk.injEq] at h1
      obtain ⟨h3, h4⟩ := h1
      subst h3
      rw [h4] at hrec
      have hall := ih r rest st1 stP tr1 e hrec h2
      simp only [List.cons_append]
      unfold execRows
      rw [hexec]
      simp [hall]

/-- C3: all per-row statements of an upsert call run inside a single
transaction: if the statement of some row `r` fails (all rows before it
having succeeded), the entire call fails with the warehouse error, the
trace shows the statements sent up to and including `r`, and the
committed table state is exactly the pre-call state — no rows from the
call are committed. -/
theorem upsert_transaction_all_or_nothing {α : Type}
    (exec : String → Row → α → Except String α) (cols : List String)
    (pre : List Row) (r : Row) (rest : List Row) (tableName schemaName : String)
    (keyCols : List String) (updateCols : Option (List String))
    (st stP : α) (tr : List (String × Row)) (e : String) (sql : String)
    (hsql : sql = buildUpsertSql schemaName tableName cols keyCols
      (updateCols.getD (cols.filter (fun c => !keyCols.contains c))))
    (hpre : execRows exec sql pre st = (tr, .ok stP))
    (hfail : exec sql r stP = .error e) :
    upsert exec cols (pre ++ r :: rest) tableName schemaName keyCols updateCols st =
      ⟨.error (.execFailed e), tr ++ [(sql, r)], st⟩ := by
  subst hsql
  unfold upsert
  have hb : (pre ++ r :: rest).isEmpty = false := by
    cases pre <;> rfl
  rw [hb]
  simp only [Bool.false_eq_true, if_false]
  rw [execRows_prefix_fail _ _ pre r rest st stP tr e hpre hfail]

/-! ### Normalization idempotence at the value level -/

/-- The 26 lowercase ASCII letters: the image of the case-folding map on
letters. -/
def lowerList : List Char :=
  ['a','b','c','d','e','f','g','h','i','j','k','l','m',
   'n','o','p','q','r','s','t','u','v','w','x','y','z']

theorem lowerChar_mem (c : Char) : lowerChar c = c ∨ lowerChar c ∈ lowerList := by
  unfold lowerChar
  split
  all_goals first | (exact Or.inl rfl) | (exact Or.inr (by decide))

theorem lowerChar_fix : ∀ c ∈ lowerList, lowerChar c = c := by decide

theorem lowerChar_idem (c : Char) : lowerChar (lowerChar c) = lowerChar c := by
  rcases lowerChar_mem c with h | h
  · simp [h]
  · exact lowerChar_fix _ h

theorem strLower_idem (s : String) : strLower (strLower s) = strLower s := by
  show (⟨(s.data.map lowerChar).map lowerChar⟩ : String) = ⟨s.data.map lowerChar⟩
  rw [List.map_map]
  have h : lowerChar ∘ lowerChar = lowerChar := funext lowerChar_idem
  rw [h]

theorem roundHalfEven_intCast (n : ℤ) : roundHalfEven (n : ℚ) = n := by
  unfold roundHalfEven
  rw [Int.floor_intCast]
  simp

theorem round2_idem (q : ℚ) : round2 (round2 q) = round2 q := by
  unfold round2
  rw [div_mul_cancel₀ _ (by norm_num : (100 : ℚ) ≠ 0), roundHalfEven_intCast]

/-! ### Field validators: output determined by the looked-up value -/

theorem reqStr_ok_val (r : Row) (n : String) (m : Nat) (s s2 : String)
    (hl : lookupVal r n = some (.str s)) (h : reqStr r n m = .ok s2) : s2 = s := by
  simp only [reqStr, hl] at h
  by_cases hc : m ≤ s.length
  · rw [if_pos hc] at h
    exact (Except.ok.inj h).symm
  · rw [if_neg hc] at h
    exact absurd h (by simp)

theorem reqStrPattern_ok_val (r : Row) (n : String) (pat : String → Bool) (s s2 : String)
    (hl : lookupVal r n = some (.str s)) (h : reqStrPattern r n pat = .ok s2) : s2 = s := by
  simp only [reqStrPattern, hl] at h
  by_cases hc : pat s = true
  · rw [if_pos hc] at h
    exact (Except.ok.inj h).symm
  · rw [if_neg hc] at h
    exact absurd h (by simp)

theorem reqFloat_ok_val (r : Row) (n : String) (check : ℚ → Bool) (kind : String)
    (q q2 : ℚ) (hl : lookupVal r n = some (.num q))
    (h : reqFloat r n check kind = .ok q2) : q2 = q := by
  simp only [reqFloat, hl] at h
  by_cases hc : check q = true
  · rw [if_pos hc] at h
    exact (Except.ok.inj h).symm
  · rw [if_neg hc] at h
    exact absurd h (by simp)

theorem reqIntGt0_ok_val (r : Row) (n : String) (q q2 : ℚ)
    (hl : lookupVal r n = some (.num q)) (h : reqIntGt0 r n = .ok q2) : q2 = q := by
  simp only [reqIntGt0, hl] at h
  by_cases h1 : q.den = 1
  · rw [if_pos h1] at h
    by_cases h2 : 0 < q
    · rw [if_pos h2] at h
      exact (Except.ok.inj h).symm
    · rw [if_neg h2] at h
      exact absurd h (by simp)
  · rw [if_neg h1] at h
    exact absurd h (by simp)

theorem optDt_ok_shape (r : Row) (n : String) (w : Value) (h : optDt r n = .ok w) :
    w = Value.null ∨ ∃ t, w = Value.dt t := by
  rcases hl : lookupVal r n with _ | v
  · simp only [optDt, hl] at h
    exact Or.inl (Except.ok.inj h).symm
  · simp only [optDt, hl] at h
    cases v with
    | dt t => exact Or.inr ⟨t, (Except.ok.inj h).symm⟩
    | null => exact Or.inl (Except.ok.inj h).symm
    | str s => exact absurd h (by simp)
    | num q => exact absurd h (by simp)
    | bool b => exact absurd h (by simp)
    | nan => exact absurd h (by simp)

theorem optDt_ok_val (r : Row) (n : String) (w w2 : Value)
    (hl : lookupVal r n = some w) (hw : w = Value.null ∨ ∃ t, w = Value.dt t)
    (h : optDt r n = .ok w2) : w2 = w := by
  rcases hw with rfl | ⟨t, rfl⟩ <;> simp only [optDt, hl] at h <;>
    exact (Except.ok.inj h).symm

/-! ### Structure of a successful model dump -/

/-- A successful `model_dump()` has pairwise-distinct field names, none
of them metadata-prefixed, and none of its values is NaN (so the null
coercion of a later cleaning pass fixes them all). -/
theorem applySchema_ok_props (sch : SchemaName) (c : Row) (dump : Row)
    (h : applySchema sch c = .ok dump) :
    (dump.map Prod.fst).Nodup ∧
    (∀ kv ∈ dump, startsWithUnderscore kv.1 = false) ∧
    (∀ kv ∈ dump, (if isna kv.2 then Value.null else kv.2) = kv.2) := by
  cases sch with
  | customers =>
    simp only [applySchema, applyCustomers] at h
    split at h
    next x1 x2 x3 x4 x5 x6 heq1 heq2 heq3 heq4 heq5 heq6 =>
      obtain rfl : _ = dump := Except.ok.inj h
      refine ⟨?_, ?_, ?_⟩
      · show (["customer_id", "first_name", "last_name", "email", "country",
              "created_at"] : List String).Nodup
        decide
      · intro kv hkv
        simp only [List.mem_cons, List.not_mem_nil, or_false] at hkv
        rcases hkv with rfl | rfl | rfl | rfl | rfl | rfl <;> rfl
      · intro kv hkv
        simp only [List.mem_cons, List.not_mem_nil, or_false] at hkv
        rcases hkv with rfl | rfl | rfl | rfl | rfl | rfl
        · rfl
        · rfl
        · rfl
        · rfl
        · rfl
        · rcases optDt_ok_shape c "created_at" x6 heq6 with rfl | ⟨t, rfl⟩ <;> rfl
    next => exact absurd h (by simp)
  | products =>
    simp only [applySchema, applyProducts] at h
    split at h
    next x1 x2 x3 x4 x5 heq1 heq2 heq3 heq4 heq5 =>
      obtain rfl : _ = dump := Except.ok.inj h
      refine ⟨?_, ?_, ?_⟩
      · show (["product_id", "product_name", "category", "price", "cost"] :
            List String).Nodup
        decide
      · intro kv hkv
        simp only [List.mem_cons, List.not_mem_nil, or_false] at hkv
        rcases hkv with rfl | rfl | rfl | rfl | rfl <;> rfl
      · intro kv hkv
        simp only [List.mem_cons, List.not_mem_nil, or_false] at hkv
        rcases hkv with rfl | rfl | rfl | rfl | rfl <;> rfl
    next => exact absurd h (by simp)
  | orders =>
    simp only [applySchema, applyOrders] at h
    split at h
    next x1 x2 x3 x4 x5 x6 heq1 heq2 heq3 heq4 heq5 heq6 =>
      obtain rfl : _ = dump := Except.ok.inj h
      refine ⟨?_, ?_, ?_⟩
      · show (["order_id", "customer_id", "product_id", "quantity", "order_date",
              "status"] : List String).Nodup
        decide
      · intro kv hkv
        simp only [List.mem_cons, List.not_mem_nil, or_false] at hkv
        rcases hkv with rfl | rfl | rfl | rfl | rfl | rfl <;> rfl
      · intro kv hkv
        simp only [List.mem_cons, List.not_mem_nil, or_false] at hkv
        rcases hkv with rfl | rfl | rfl | rfl | rfl | rfl
        · rfl
        · rfl
        · rfl
        · rfl
        · rcases optDt_ok_shape c "order_date" x5 heq5 with rfl | ⟨t, rfl⟩ <;> rfl
        · rfl
    next => exact absurd h (by simp)

/-- Re-applying a schema to a row that carries a previous run's
normalized field values reproduces the same model dump, whenever it
succeeds at all: lower-casing and rounding are idempotent. -/
theorem applySchema_stable (sch : SchemaName) (c c2 : Row) (dump dump2 : Row)
    (h1 : applySchema sch c = .ok dump)
    (hl : ∀ kv ∈ dump, lookupVal c2 kv.1 = some kv.2)
    (h2 : applySchema sch c2 = .ok dump2) : dump2 = dump := by
  cases sch with
  | customers =>
    simp only [applySchema, applyCustomers] at h1 h2
    split at h1
    next x1 x2 x3 x4 x5 x6 heq1 heq2 heq3 heq4 heq5 heq6 =>
      obtain rfl : _ = dump := Except.ok.inj h1
      have l1 : lookupVal c2 "customer_id" = some (.str x1) := hl (_, .str x1) (by simp)
      have l2 : lookupVal c2 "first_name" = some (.str x2) := hl (_, .str x2) (by simp)
      have l3 : lookupVal c2 "last_name" = some (.str x3) := hl (_, .str x3) (by simp)
      have l4 : lookupVal c2 "email" = some (.str (strLower x4)) := hl (_, .str (strLower x4)) (by simp)
      have l5 : lookupVal c2 "country" = some (.str x5) := hl (_, .str x5) (by simp)
      have l6 : lookupVal c2 "created_at" = some x6 := hl (_, x6) (by simp)
      split at h2
      next y1 y2 y3 y4 y5 y6 g1 g2 g3 g4 g5 g6 =>
        obtain rfl : _ = dump2 := Except.ok.inj h2
        obtain rfl : y1 = x1 := reqStr_ok_val c2 "customer_id" 1 x1 y1 l1 g1
        obtain rfl : y2 = x2 := reqStr_ok_val c2 "first_name" 1 x2 y2 l2 g2
        obtain rfl : y3 = x3 := reqStr_ok_val c2 "last_name" 1 x3 y3 l3 g3
        have e4 : y4 = strLower x4 :=
          reqStrPattern_ok_val c2 "email" emailMatch (strLower x4) y4 l4 g4
        obtain rfl : y5 = x5 := reqStr_ok_val c2 "country" 2 x5 y5 l5 g5
        obtain rfl : y6 = x6 :=
          optDt_ok_val c2 "created_at" x6 y6 l6 (optDt_ok_shape c "created_at" x6 heq6) g6
        rw [e4, strLower_idem]
      next => exact absurd h2 (by simp)
    next => exact absurd h1 (by simp)
  | products =>
    simp only [applySchema, applyProducts] at h1 h2
    split at h1
    next x1 x2 x3 x4 x5 heq1 heq2 heq3 heq4 heq5 =>
      obtain rfl : _ = dump := Except.ok.inj h1
      have l1 : lookupVal c2 "product_id" = some (.str x1) := hl (_, .str x1) (by simp)
      have l2 : lookupVal c2 "product_name" = some (.str x2) := hl (_, .str x2) (by simp)
      have l3 : lookupVal c2 "category" = some (.str x3) := hl (_, .str x3) (by simp)
      have l4 : lookupVal c2 "price" = some (.num (round2 x4)) := hl (_, .num (round2 x4)) (by simp)
      have l5 : lookupVal c2 "cost" = some (.num (round2 x5)) := hl (_, .num (round2 x5)) (by simp)
      split at h2
      next y1 y2 y3 y4 y5 g1 g2 g3 g4 g5 =>
        obtain rfl : _ = dump2 := Except.ok.inj h2
        obtain rfl : y1 = x1 := reqStr_ok_val c2 "product_id" 1 x1 y1 l1 g1
        obtain rfl : y2 = x2 := reqStr_ok_val c2 "product_name" 1 x2 y2 l2 g2
        obtain rfl : y3 = x3 := reqStr_ok_val c2 "category" 1 x3 y3 l3 g3
        have e4 : y4 = round2 x4 :=
          reqFloat_ok_val c2 "price" (fun q => decide (0 < q)) "greater_than"
            (round2 x4) y4 l4 g4
        have e5 : y5 = round2 x5 :=
          reqFloat_ok_val c2 "cost" (fun q => decide (0 ≤ q)) "greater_than_equal"
            (round2 x5) y5 l5 g5
        rw [e4, e5, round2_idem, round2_idem]
      next => exact absurd h2 (by simp)
    next => exact absurd h1 (by simp)
  | orders =>
    simp only [applySchema, applyOrders] at h1 h2
    split at h1
    next x1 x2 x3 x4 x5 x6 heq1 heq2 heq3 heq4 heq5 heq6 =>
      obtain rfl : _ = dump := Except.ok.inj h1
      have l1 : lookupVal c2 "order_id" = some (.str x1) := hl (_, .str x1) (by simp)
      have l2 : lookupVal c2 "customer_id" = some (.str x2) := hl (_, .str x2) (by simp)
      have l3 : lookupVal c2 "product_id" = some (.str x3) := hl (_, .str x3) (by simp)
      have l4 : lookupVal c2 "quantity" = some (.num x4) := hl (_, .num x4) (by simp)
      have l5 : lookupVal c2 "order_date" = some x5 := hl (_, x5) (by simp)
      have l6 : lookupVal c2 "status" = some (.str x6) := hl (_, .str x6) (by simp)
      split at h2
      next y1 y2 y3 y4 y5 y6 g1 g2 g3 g4 g5 g6 =>
        obtain rfl : _ = dump2 := Except.ok.inj h2
        obtain rfl : y1 = x1 := reqStr_ok_val c2 "order_id" 1 x1 y1 l1 g1
        obtain rfl : y2 = x2 := reqStr_ok_val c2 "customer_id" 1 x2 y2 l2 g2
        obtain rfl : y3 = x3 := reqStr_ok_val c2 "product_id" 1 x3 y3 l3 g3
        obtain rfl : y4 = x4 := reqIntGt0_ok_val c2 "quantity" x4 y4 l4 g4
        obtain rfl : y5 = x5 :=
          optDt_ok_val c2 "order_date" x5 y5 l5 (optDt_ok_shape c "order_date" x5 heq5) g5
        obtain rfl : y6 = x6 := reqStrPattern_ok_val c2 "status" statusMatch x6 y6 l6 g6
        rfl
      next => exact absurd h2 (by simp)
    next => exact absurd h1 (by simp)

theorem validateRows_filter_stable (sch : SchemaName) :
    ∀ (rows : List Row) (idx : Nat) (acc : List Row) (errs : List ValErr),
      validateRows .filter sch idx rows = .ok (acc, errs) →
      ∀ (idx2 : Nat) (acc2 : List Row),
        validateRows .filter sch idx2 acc = .ok (acc2, []) → acc2 = acc := by
  intro rows
  induction rows with
  | nil =>
    intro idx acc errs h idx2 acc2 h2
    simp only [validateRows, Except.ok.injEq, Prod.mk.injEq] at h
    obtain ⟨h1, _⟩ := h
    subst h1
    simp only [validateRows, Except.ok.injEq, Prod.mk.injEq] at h2
    exact h2.1.symm
  | cons r rest ih =>
    intro idx acc errs h idx2 acc2 h2
    unfold validateRows at h
    cases happ : applySchema sch (cleanRow r) with
    | error fes =>
      rw [happ] at h
      cases hrec : validateRows .filter sch (idx + 1) rest with
      | ok p =>
        obtain ⟨vs, es⟩ := p
        rw [hrec] at h
        simp only [Except.ok.injEq, Prod.mk.injEq] at h
        obtain ⟨h3, h4⟩ := h
        subst h3
        exact ih (idx + 1) vs es hrec idx2 acc2 h2
      | error e =>
        rw [hrec] at h
        exact absurd h (by simp)
    | ok dump =>
      rw [happ] at h
      cases hrec : validateRows .filter sch (idx + 1) rest with
      | ok p =>
        obtain ⟨vs, es⟩ := p
        rw [hrec] at h
        simp only [Except.ok.injEq, Prod.mk.injEq] at h
        obtain ⟨h3, h4⟩ := h
        rw [if_neg (by decide : ¬ (Mode.filter = Mode.flag))] at h3
        subst h3
        subst h4
        unfold validateRows at h2
        cases happ2 : applySchema sch (cleanRow (dictUpdate r dump)) with
        | error fes2 =>
          rw [happ2] at h2
          cases hrec2 : validateRows .filter sch (idx2 + 1) vs with
          | ok p2 =>
            obtain ⟨vs2, es2⟩ := p2
            rw [hrec2] at h2
            simp only [Except.ok.injEq, Prod.mk.injEq] at h2
            exact absurd h2.2 (by simp)
          | error e =>
            rw [hrec2] at h2
            exact absurd h2 (by simp)
        | ok dump2 =>
          rw [happ2] at h2
          cases hrec2 : validateRows .filter sch (idx2 + 1) vs with
          | ok p2 =>
            obtain ⟨vs2, es2⟩ := p2
            rw [hrec2] at h2
            simp only [Except.ok.injEq, Prod.mk.injEq] at h2
            obtain ⟨h5, h6⟩ := h2
            rw [if_neg (by decide : ¬ (Mode.filter = Mode.flag))] at h5
            obtain ⟨hnd, hmeta, hcoerce⟩ := applySchema_ok_props sch (cleanRow r) dump happ
            have hlook : ∀ kv ∈ dump, lookupVal (dictUpdate r dump) kv.1 = some kv.2 := by
              intro kv hkv
              exact lookupVal_dictUpdate_mem r dump kv.1 kv.2 hnd
                (by rw [Prod.mk.eta]; exact hkv)
            have hlook2 : ∀ kv ∈ dump,
                lookupVal (cleanRow (dictUpdate r dump)) kv.1 = some kv.2 := by
              intro kv hkv
              rw [lookupVal_cleanRow _ _ (hmeta kv hkv), hlook kv hkv]
              exact congrArg some (hcoerce kv hkv)
            have hdump2 : dump2 = dump :=
              applySchema_stable sch (cleanRow r) (cleanRow (dictUpdate r dump))
                dump dump2 happ hlook2 happ2
            rw [hdump2] at h5
            have hfix : dictUpdate (dictUpdate r dump) dump = dictUpdate r dump :=
              dictUpdate_lookup_eq _ dump hlook
            subst h6
            have hvs2 : vs2 = vs := ih (idx + 1) vs es hrec (idx2 + 1) vs2 hrec2
            rw [← h5, hfix, hvs2]
          | error e =>
            rw [hrec2] at h2
            exact absurd h2 (by simp)
      | error e =>
        rw [hrec] at h
        exact absurd h (by simp)

/-- C8 counterexample: normalization is not idempotent on the dataset
level.  The product row with price 0.001 passes validation (0.001 > 0)
and is normalized to price 0.0 by round(·, 2); re-validating the
accepted output rejects that row (0.0 > 0 fails), so the second
accepted output is empty instead of equal to its input. -/
theorem revalidation_not_idempotent :
    validate .filter "products" [tinyProduct] = .ok ([tinyProductNorm], []) ∧
    validate .filter "products" [tinyProductNorm] =
      .ok ([], [⟨0, [⟨"price", "greater_than", some (.num 0)⟩], tinyProductNorm⟩]) ∧
    ([] : List Row) ≠ [tinyProductNorm] :=
  ⟨by with_unfolding_all rfl, by with_unfolding_all rfl, by decide⟩

/-- C8 amended: value-level normalization (lower-casing, 2-decimal
rounding) is idempotent, so re-validating the accepted output of a
filter-mode validate reproduces it identically whenever the second run
accepts every row; the proviso is forced because rounding can push a
price in (0, 0.005) down to 0, which fails the price constraint on the
second pass and drops the row. -/
theorem validate_filter_revalidation_idempotent (schemaName : String)
    (df acc acc2 : List Row) (errs : List ValErr)
    (h1 : validate .filter schemaName df = .ok (acc, errs))
    (h2 : validate .filter schemaName acc = .ok (acc2, [])) :
    acc2 = acc := by
  cases hs : schemaOfName schemaName with
  | none =>
    unfold validate at h1
    rw [hs] at h1
    exact absurd h1 (by simp)
  | some sch =>
    rw [validate_eq_of_schema .filter schemaName sch df hs] at h1
    rw [validate_eq_of_schema .filter schemaName sch acc hs] at h2
    cases hr1 : validateRows .filter sch 0 df with
    | ok p =>
      obtain ⟨vs, es⟩ := p
      rw [hr1] at h1
      simp only [Except.ok.injEq, Prod.mk.injEq] at h1
      obtain ⟨ha, hb⟩ := h1
      subst ha
      subst hb
      cases hr2 : validateRows .filter sch 0 vs with
      | ok p2 =>
        obtain ⟨ws, es2⟩ := p2
        rw [hr2] at h2
        simp only [Except.ok.injEq, Prod.mk.injEq] at h2
        obtain ⟨hc, hd⟩ := h2
        subst hd
        rw [← hc]
        exact validateRows_filter_stable sch df 0 vs es hr1 0 ws hr2
      | error e =>
        rw [hr2] at h2
        exact absurd h2 (by simp)
    | error e =>
      rw [hr1] at h1
      exact absurd h1 (by simp)

/-- C8 amended, witness: a product row with already-round price and cost
revalidates to exactly itself. -/
theorem validate_filter_revalidation_idempotent_witness :
    validate .filter "products" [sampleProduct] = .ok ([sampleProduct], []) ∧
    ([sampleProduct] : List Row) = [sampleProduct] :=
  ⟨by with_unfolding_all rfl,
   validate_filter_revalidation_idempotent "products" [sampleProduct] [sampleProduct]
     [sampleProduct] [] (by with_unfolding_all rfl) (by with_unfolding_all rfl)⟩

/-- C3 witness: a two-row upsert where the second row's statement
violates a constraint: the call fails and the toy table state (a count
of applied statements) is back at its pre-call value 0. -/
theorem upsert_transaction_all_or_nothing_witness :
    (buildUpsertSql "raw" "t" ["k", "v"] ["k"]
        ((none : Option (List String)).getD
          ((["k", "v"] : List String).filter (fun c => !(["k"] : List String).contains c))) =
      buildUpsertSql "raw" "t" ["k", "v"] ["k"]
        ((none : Option (List String)).getD
          ((["k", "v"] : List String).filter (fun c => !(["k"] : List String).contains c)))) ∧
    (execRows toyExec
        (buildUpsertSql "raw" "t" ["k", "v"] ["k"]
          ((none : Option (List String)).getD
            ((["k", "v"] : List String).filter (fun c => !(["k"] : List String).contains c))))
        [toyRow] 0 =
      ([(buildUpsertSql "raw" "t" ["k", "v"] ["k"]
          ((none : Option (List String)).getD
            ((["k", "v"] : List String).filter (fun c => !(["k"] : List String).contains c))),
         toyRow)], .ok 1)) ∧
    upsert toyExec ["k", "v"] ([toyRow] ++ toyRow2 :: []) "t" "raw" ["k"] none 0 =
      ⟨.error (.execFailed "constraint violation"),
       [(buildUpsertSql "raw" "t" ["k", "v"] ["k"]
          ((none : Option (List String)).getD
            ((["k", "v"] : List String).filter (fun c => !(["k"] : List String).contains c))),
         toyRow)] ++
         [(buildUpsertSql "raw" "t" ["k", "v"] ["k"]
            ((none : Option (List String)).getD
              ((["k", "v"] : List String).filter (fun c => !(["k"] : List String).contains c))),
           toyRow2)],
       0⟩ :=
  ⟨rfl, by with_unfolding_all rfl,
   upsert_transaction_all_or_nothing toyExec ["k", "v"] [toyRow] toyRow2 [] "t" "raw"
     ["k"] none 0 1 _ "constraint violation" _ rfl (by with_unfolding_all rfl)
     (by with_unfolding_all rfl)⟩

/-! ### Null coercion (C6) -/

/-- A customer row whose email is the empty string (present, not NaN). -/
def emptyEmailCustomer : Row :=
  [("customer_id", .str "C003"), ("first_name", .str "Ann"), ("last_name", .str "Lee"),
   ("email", .str ""), ("country", .str "US"), ("created_at", .null)]

/-- C6 counterexample: an empty string is NOT treated as null.  The
cleaning step passes `""` through unchanged, and validation then rejects
the row with a pattern error on the string `""` — not with the null/type
error that an actual null produces (compare `badCustomer`-style null
handling).  So "empty value" is not among the values coerced to null. -/
theorem empty_string_not_treated_as_null :
    lookupVal (cleanRow emptyEmailCustomer) "email" = some (.str "") ∧
    (Value.str "" ≠ Value.null) ∧
    validate .filter "customers" [emptyEmailCustomer] =
      .ok ([], [⟨0, [⟨"email", "string_pattern_mismatch", some (.str "")⟩],
        emptyEmailCustomer⟩]) :=
  ⟨rfl, by decide, by decide⟩

/-- C6 amended: before the schema checks run, the cleaning step coerces
exactly the `pd.isna` values — NaN and None — of non-metadata columns to
null; other values, the empty string included, are passed through
unchanged, and absent keys stay absent. -/
theorem isna_coerced_to_null_before_checks (r : Row) (k : String) (v : Value)
    (hk : startsWithUnderscore k = false) (hv : lookupVal r k = some v) :
    lookupVal (cleanRow r) k = some (if isna v then Value.null else v) := by
  rw [lookupVal_cleanRow r k hk, hv]
  rfl

/-- C6 amended, witness: a NaN cell is coerced to null. -/
theorem isna_coerced_to_null_before_checks_witness :
    (startsWithUnderscore "created_at" = false) ∧
    (lookupVal [("created_at", Value.nan)] "created_at" = some Value.nan) ∧
    lookupVal (cleanRow [("created_at", Value.nan)]) "created_at" =
      some (if isna Value.nan then Value.null else Value.nan) :=
  ⟨rfl, rfl, isna_coerced_to_null_before_checks [("created_at", Value.nan)]
    "created_at" Value.nan rfl rfl⟩

/-! ### Metadata columns (C7) -/

/-- A valid customer row that already carries an `_is_valid` metadata
column (say, from an earlier flag-mode run with a stale value). -/
def flaggedCustomer : Row := sampleCustomer ++ [("_is_valid", .bool false)]

/-- The accepted output of flag-mode validation of `flaggedCustomer`:
the validator overwrote `_is_valid`. -/
def flaggedCustomerOut : Row := sampleCustomerNorm ++ [("_is_valid", .bool true)]

/-- C7 counterexample: in flag mode the metadata column `_is_valid` of an
input row is NOT preserved unchanged — the validator overwrites it (False
becomes True here), so not every metadata column keeps exactly its
original value in the accepted output. -/
theorem flag_mode_overwrites_is_valid_metadata :
    validate .flag "customers" [flaggedCustomer] = .ok ([flaggedCustomerOut], []) ∧
    lookupVal flaggedCustomer "_is_valid" = some (.bool false) ∧
    lookupVal flaggedCustomerOut "_is_valid" = some (.bool true) :=
  ⟨by decide, rfl, rfl⟩

theorem validateRows_filter_meta (sch : SchemaName) :
    ∀ (rows : List Row) (idx : Nat) (acc : List Row) (errs : List ValErr),
      validateRows .filter sch idx rows = .ok (acc, errs) →
      ∀ a ∈ acc, ∃ r ∈ rows, ∀ k, startsWithUnderscore k = true →
        lookupVal a k = lookupVal r k := by
  intro rows
  induction rows with
  | nil =>
    intro idx acc errs h a ha
    simp only [validateRows, Except.ok.injEq, Prod.mk.injEq] at h
    obtain ⟨h1, _⟩ := h
    subst h1
    simp at ha
  | cons r rest ih =>
    intro idx acc errs h a ha
    unfold validateRows at h
    cases happ : applySchema sch (cleanRow r) with
    | ok dump =>
      rw [happ] at h
      cases hrec : validateRows .filter sch (idx + 1) rest with
      | ok p =>
        obtain ⟨vs, es⟩ := p
        rw [hrec] at h
        simp only [Except.ok.injEq, Prod.mk.injEq] at h
        obtain ⟨h1, h2⟩ := h
        rw [if_neg (by decide : ¬ (Mode.filter = Mode.flag))] at h1
        subst h1
        rcases List.mem_cons.mp ha with rfl | hmem
        · refine ⟨r, List.mem_cons_self _ _, ?_⟩
          intro k hk
          obtain ⟨_, hmeta, _⟩ := applySchema_ok_props sch (cleanRow r) dump happ
          apply lookupVal_dictUpdate_notmem
          intro kv hkv heq
          have hno := hmeta kv hkv
          rw [heq, hk] at hno
          exact Bool.noConfusion hno
        · obtain ⟨r2, hr2, hp⟩ := ih (idx + 1) vs es hrec a hmem
          exact ⟨r2, List.mem_cons_of_mem _ hr2, hp⟩
      | error e =>
        rw [hrec] at h
        exact absurd h (by simp)
    | error fes =>
      rw [happ] at h
      cases hrec : validateRows .filter sch (idx + 1) rest with
      | ok p =>
        obtain ⟨vs, es⟩ := p
        rw [hrec] at h
        simp only [Except.ok.injEq, Prod.mk.injEq] at h
        obtain ⟨h1, h2⟩ := h
        subst h1
        obtain ⟨r2, hr2, hp⟩ := ih (idx + 1) vs es hrec a ha
        exact ⟨r2, List.mem_cons_of_mem _ hr2, hp⟩
      | error e =>
        rw [hrec] at h
        exact absurd h (by simp)

theorem validateRows_flag_meta (sch : SchemaName) :
    ∀ (rows : List Row) (idx : Nat) (acc : List Row) (errs : List ValErr),
      validateRows .flag sch idx rows = .ok (acc, errs) →
      ∀ a ∈ acc, ∃ r ∈ rows, ∀ k, startsWithUnderscore k = true →
        k ≠ "_is_valid" → k ≠ "_validation_errors" →
        lookupVal a k = lookupVal r k := by
  intro rows
  induction rows with
  | nil =>
    intro idx acc errs h a ha
    simp only [validateRows, Except.ok.injEq, Prod.mk.injEq] at h
    obtain ⟨h1, _⟩ := h
    subst h1
    simp at ha
  | cons r rest ih =>
    intro idx acc errs h a ha
    unfold validateRows at h
    cases happ : applySchema sch (cleanRow r) with
    | ok dump =>
      rw [happ] at h
      cases hrec : validateRows .flag sch (idx + 1) rest with
      | ok p =>
        obtain ⟨vs, es⟩ := p
        rw [hrec] at h
        simp only [Except.ok.injEq, Prod.mk.injEq] at h
        obtain ⟨h1, h2⟩ := h
        rw [if_pos trivial] at h1
        subst h1
        rcases List.mem_cons.mp ha with rfl | hmem
        · refine ⟨r, List.mem_cons_self _ _, ?_⟩
          intro k hk hk1 hk2
          rw [lookupVal_dictInsert_ne _ _ _ _ (Ne.symm hk1)]
          obtain ⟨_, hmeta, _⟩ := applySchema_ok_props sch (cleanRow r) dump happ
          apply lookupVal_dictUpdate_notmem
          intro kv hkv heq
          have hno := hmeta kv hkv
          rw [heq, hk] at hno
          exact Bool.noConfusion hno
        · obtain ⟨r2, hr2, hp⟩ := ih (idx + 1) vs es hrec a hmem
          exact ⟨r2, List.mem_cons_of_mem _ hr2, hp⟩
      | error e =>
        rw [hrec] at h
        exact absurd h (by simp)
    | error fes =>
      rw [happ] at h
      cases hrec : validateRows .flag sch (idx + 1) rest with
      | ok p =>
        obtain ⟨vs, es⟩ := p
        rw [hrec] at h
        simp only [Except.ok.injEq, Prod.mk.injEq] at h
        obtain ⟨h1, h2⟩ := h
        subst h1
        rcases List.mem_cons.mp ha with rfl | hmem
        · refine ⟨r, List.mem_cons_self _ _, ?_⟩
          intro k hk hk1 hk2
          rw [lookupVal_dictInsert_ne _ _ _ _ (Ne.symm hk2)]
          rw [lookupVal_dictInsert_ne _ _ _ _ (Ne.symm hk1)]
        · obtain ⟨r2, hr2, hp⟩ := ih (idx + 1) vs es hrec a hmem
          exact ⟨r2, List.mem_cons_of_mem _ hr2, hp⟩
      | error e =>
        rw [hrec] at h
        exact absurd h (by simp)

/-- C7 amended: metadata columns (reserved `_` prefix) are excluded from
schema validation — the cleaned row handed to the schema has no such
key.  In filter mode, every accepted row of any dataset comes from an
input row all of whose metadata columns it carries with exactly their
original values; in flag mode the same holds for every metadata column
other than the validator-owned `_is_valid` and `_validation_errors`,
which the validator writes itself. -/
theorem metadata_excluded_and_preserved (schemaName : String) (df : List Row) :
    (∀ (r : Row) (k : String), startsWithUnderscore k = true →
        lookupVal (cleanRow r) k = none) ∧
    (∀ acc errs, validate .filter schemaName df = .ok (acc, errs) →
        ∀ a ∈ acc, ∃ r ∈ df, ∀ k, startsWithUnderscore k = true →
          lookupVal a k = lookupVal r k) ∧
    (∀ acc errs, validate .flag schemaName df = .ok (acc, errs) →
        ∀ a ∈ acc, ∃ r ∈ df, ∀ k, startsWithUnderscore k = true →
          k ≠ "_is_valid" → k ≠ "_validation_errors" →
          lookupVal a k = lookupVal r k) := by
  refine ⟨fun r k hk => lookupVal_cleanRow_meta r k hk, ?_, ?_⟩
  · intro acc errs h
    cases hs : schemaOfName schemaName with
    | none =>
      unfold validate at h
      rw [hs] at h
      exact absurd h (by simp)
    | some sch =>
      rw [validate_eq_of_schema .filter schemaName sch df hs] at h
      cases hrun : validateRows .filter sch 0 df with
      | ok p =>
        obtain ⟨vs, es⟩ := p
        rw [hrun] at h
        simp only [Except.ok.injEq, Prod.mk.injEq] at h
        obtain ⟨h1, h2⟩ := h
        subst h1
        exact validateRows_filter_meta sch df 0 vs es hrun
      | error e =>
        rw [hrun] at h
        exact absurd h (by simp)
  · intro acc errs h
    cases hs : schemaOfName schemaName with
    | none =>
      unfold validate at h
      rw [hs] at h
      exact absurd h (by simp)
    | some sch =>
      rw [validate_eq_of_schema .flag schemaName sch df hs] at h
      cases hrun : validateRows .flag sch 0 df with
      | ok p =>
        obtain ⟨vs, es⟩ := p
        rw [hrun] at h
        simp only [Except.ok.injEq, Prod.mk.injEq] at h
        obtain ⟨h1, h2⟩ := h
        subst h1
        exact validateRows_flag_meta sch df 0 vs es hrun
      | error e =>
        rw [hrun] at h
        exact absurd h (by simp)

/-- A valid customer row carrying a provenance metadata column. -/
def metaCustomer : Row := sampleCustomer ++ [("_source", Value.str "csv_customers")]

/-- C7 amended, witness: the `_source` column is skipped by validation
and comes through both a filter-mode and a flag-mode run verbatim. -/
theorem metadata_excluded_and_preserved_witness :
    (validate .filter "customers" [metaCustomer] =
        .ok ([dictUpdate metaCustomer sampleCustomerDump], [])) ∧
    (validate .flag "customers" [metaCustomer] =
        .ok ([dictInsert (dictUpdate metaCustomer sampleCustomerDump) "_is_valid"
          (Value.bool true)], [])) ∧
    lookupVal (cleanRow metaCustomer) "_source" = none ∧
    lookupVal (dictUpdate metaCustomer sampleCustomerDump) "_source" =
      lookupVal metaCustomer "_source" ∧
    lookupVal (dictInsert (dictUpdate metaCustomer sampleCustomerDump) "_is_valid"
      (Value.bool true)) "_source" = lookupVal metaCustomer "_source" := by
  have h := metadata_excluded_and_preserved "customers" [metaCustomer]
  refine ⟨by decide, by decide, h.1 metaCustomer "_source" rfl, ?_, ?_⟩
  · obtain ⟨r, hr, hp⟩ := h.2.1 [dictUpdate metaCustomer sampleCustomerDump] []
      (by decide) (dictUpdate metaCustomer sampleCustomerDump) (by simp)
    have hr2 := List.mem_singleton.mp hr
    subst hr2
    exact hp "_source" rfl
  · obtain ⟨r, hr, hp⟩ := h.2.2
      [dictInsert (dictUpdate metaCustomer sampleCustomerDump) "_is_valid" (Value.bool true)]
      [] (by decide)
      (dictInsert (dictUpdate metaCustomer sampleCustomerDump) "_is_valid" (Value.bool true))
      (by simp)
    have hr2 := List.mem_singleton.mp hr
    subst hr2
    exact hp "_source" rfl (by decide) (by decide)
